import Mathlib

/-!
# Verification development for joltify-finance/tss

A shallow embedding of

* `keysign/notifier.go`  : `NewNotifier`, `verifySignature`, `ProcessSignature`,
  `GetResponseChannel`;
* `p2p_message.go`       : `THORChainTSSMessageType.String`, `WireMessage.GetCacheKey`,
  `LocalCacheItem.UpdateConfirmList`, `LocalCacheItem.TotalConfirmParty`.

Go values are modelled as follows.  A byte slice is a list of bytes, a `nil`
pointer is `none`, an `error` is a `GoError` (with `nil` as `none`), a buffered
channel is its queue together with its capacity, and a run-time fault (a nil
dereference) is an explicit outcome.  The cryptographic libraries are not part of
the repository; they are taken as a parameter (`CryptoLib`).
-/

namespace Tss

/-! ## Go runtime values -/

/-- One octet. -/
abbrev Byte := Fin 256

/-- A Go `[]byte`. -/
abbrev Bytes := List Byte

/-- A Go `error` value: `errors.New s`, or `fmt.Errorf (pfx ++ "%w") inner`. -/
inductive GoError where
  | new (s : String)
  | wrap (pfx : String) (inner : GoError)
  deriving DecidableEq, Repr

namespace GoError

/-- The text of `err.Error()`. -/
def Error : GoError → String
  | new s => s
  | wrap pfx inner => pfx ++ inner.Error

/-- The result of `errors.Unwrap err`. -/
def Unwrap : GoError → Option GoError
  | new _ => none
  | wrap _ inner => some inner

end GoError

deriving instance DecidableEq for Except

/-- The outcome of running a Go function: it returns a value or the goroutine faults. -/
inductive Outcome (α : Type) where
  | ret (a : α)
  | fault
  deriving DecidableEq, Repr

/-- A buffered Go channel: the queued items (oldest first) and the capacity given to `make`. -/
structure Chan (α : Type) where
  buf : List α
  cap : Nat
  deriving DecidableEq, Repr

namespace Chan

/-- The channel `make(chan T, cap)`. -/
def make {α : Type} (cap : Nat) : Chan α := ⟨[], cap⟩

/-- The send `ch <- x` with no receiver waiting: it enqueues when there is room and
otherwise does not complete (`none`). -/
def send {α : Type} (ch : Chan α) (x : α) : Option (Chan α) :=
  if ch.buf.length < ch.cap then some ⟨ch.buf ++ [x], ch.cap⟩ else none

/-- The receive `<-ch`: the oldest queued item and the remaining channel, when there is one. -/
def recv {α : Type} (ch : Chan α) : Option (α × Chan α) :=
  match ch.buf with
  | [] => none
  | x :: rest => some (x, ⟨rest, ch.cap⟩)

end Chan

/-- The value of `new(big.Int).SetBytes(b)`: `b` read as an unsigned big-endian integer. -/
def SetBytes (b : Bytes) : Nat :=
  b.foldl (fun acc x => acc * 256 + x.val) 0

/-! ## The external libraries -/

/-- The `SignatureData` message of tss-lib (`bc.SignatureData`). -/
structure SignatureData where
  Signature : Bytes
  SignatureRecovery : Bytes
  R : Bytes
  S : Bytes
  M : Bytes
  deriving DecidableEq, Repr

/-- The dynamic type of a tendermint `crypto.PubKey`, with the key bytes. -/
inductive PubKey where
  | PubKeySecp256k1 (raw : Bytes)
  | PubKeyEd25519 (raw : Bytes)
  | otherKey (typeName : String) (raw : Bytes)
  deriving DecidableEq, Repr

/-- A parsed public key: a point of the curve. -/
structure CurvePoint where
  X : Nat
  Y : Nat
  deriving DecidableEq, Repr

/-- An `edwards.Signature`. -/
structure EdSignature where
  R : Nat
  S : Nat
  deriving DecidableEq, Repr

/-- The library functions `verifySignature` calls. A parser returns either its value or
its error; a failing `edwards.ParseSignature` returns the `nil` signature with the error. -/
structure CryptoLib where
  GetPubKeyFromBech32 : String → Except GoError PubKey
  btcecParsePubKey : Bytes → Except GoError CurvePoint
  ecdsaVerify : CurvePoint → Bytes → Nat → Nat → Bool
  edwardsParsePubKey : Bytes → Except GoError CurvePoint
  edwardsParseSignature : Bytes → Except GoError EdSignature
  edwardsVerify : CurvePoint → Bytes → Nat → Nat → Bool

/-! ## keysign/notifier.go -/

/-- Notifier receives the keysign signature, success or failure. -/
structure Notifier where
  MessageID : String
  message : Bytes
  poolPubKey : String
  resp : Chan (Option SignatureData)
  deriving DecidableEq, Repr

/-- NewNotifier creates a new instance of Notifier. -/
def NewNotifier (messageID : String) (message : Bytes) (poolPubKey : String) :
    Except GoError Notifier :=
  if messageID.length = 0 then
    .error (GoError.new "messageID is empty")
  else if message.length = 0 then
    .error (GoError.new "message is nil")
  else if poolPubKey.length = 0 then
    .error (GoError.new "pool pubkey is empty")
  else
    .ok { MessageID := messageID, message := message, poolPubKey := poolPubKey,
          resp := Chan.make 1 }

namespace Notifier

/-- The method verifySignature checks the signature against the message the notifier holds. -/
def verifySignature (L : CryptoLib) (n : Notifier) (data : SignatureData) :
    Outcome (Bool × Option GoError) :=
  match L.GetPubKeyFromBech32 n.poolPubKey with
  | .error err =>
    .ret (false, some (GoError.wrap
      ("fail to get pubkey from bech32 pubkey string(" ++ n.poolPubKey ++ "):") err))
  | .ok pubKey =>
    match pubKey with
    | .PubKeySecp256k1 pk =>
      match L.btcecParsePubKey pk with
      | .error err => .ret (false, some err)
      | .ok pub =>
        .ret (L.ecdsaVerify pub n.message (SetBytes data.R) (SetBytes data.S), none)
    | .PubKeyEd25519 rawPk =>
      match L.edwardsParsePubKey rawPk with
      | .error err => .ret (false, some (GoError.wrap "inval ed25519 key with error " err))
      | .ok bPk =>
        match L.edwardsParseSignature data.Signature with
        | .error _ => .fault
        | .ok newSig => .ret (L.edwardsVerify bPk n.message newSig.R newSig.S, none)
    | .otherKey _ _ => .ret (false, some (GoError.new "invalid pubkey type"))

/-- What a call of `ProcessSignature` does: it returns its two results and leaves the
notifier in a new state, or it stays parked on the channel send, or it faults. -/
inductive ProcessResult where
  | returned (ok : Bool) (err : Option GoError) (after : Notifier)
  | blocked
  | fault
  deriving DecidableEq, Repr

/-- The method ProcessSignature verifies a non-nil signature and pushes the data to the
response channel. -/
def ProcessSignature (L : CryptoLib) (n : Notifier) (data : Option SignatureData) :
    ProcessResult :=
  let push : ProcessResult :=
    match n.resp.send data with
    | none => .blocked
    | some ch => .returned true none { n with resp := ch }
  match data with
  | some d =>
    match n.verifySignature L d with
    | .fault => .fault
    | .ret (_, some err) =>
      .returned false (some (GoError.wrap "fail to verify signature: " err)) n
    | .ret (verify, none) =>
      if !verify then .returned false none n else push
  | none => push

/-- GetResponseChannel returns the channel the final signature is delivered on. -/
def GetResponseChannel (n : Notifier) : Chan (Option SignatureData) := n.resp

end Notifier

/-- A small library instance used to evaluate the model on concrete inputs: the key
strings "secp", "ed" and "sr" decode to the three kinds of key, a key parses when its
bytes are non-empty, a signature parses when it has two bytes, and a signature verifies
when `R` equals the length of the message and `S` is 1. -/
def toyLib : CryptoLib where
  GetPubKeyFromBech32 := fun s =>
    if s = "secp" then .ok (.PubKeySecp256k1 [2, 7])
    else if s = "ed" then .ok (.PubKeyEd25519 [9])
    else if s = "sr" then .ok (.otherKey "PubKeySr25519" [5])
    else .error (GoError.new "decoding bech32 failed")
  btcecParsePubKey := fun b =>
    match b with
    | [] => .error (GoError.new "pubkey string is empty")
    | x :: _ => .ok ⟨x.val, b.length⟩
  ecdsaVerify := fun _ msg r s => decide (r = msg.length ∧ s = 1)
  edwardsParsePubKey := fun b =>
    match b with
    | [] => .error (GoError.new "empty pubkey")
    | x :: _ => .ok ⟨x.val, b.length⟩
  edwardsParseSignature := fun b =>
    match b with
    | [r, s] => .ok ⟨r.val, s.val⟩
    | _ => .error (GoError.new "bad signature size")
  edwardsVerify := fun _ msg r s => decide (r = msg.length ∧ s = 1)

namespace Notifier

/-- One event in the life of a notifier: a call of `ProcessSignature`, or a consumer
taking an item from the channel `GetResponseChannel` returned. -/
inductive Event where
  | process (data : Option SignatureData)
  | receive
  deriving DecidableEq, Repr

/-- The notifier after one event. A call that faults or stays parked on the send, and a
receive from an empty channel, leave the channel as it is. -/
def afterEvent (L : CryptoLib) (n : Notifier) : Event → Notifier
  | .process data =>
    match n.ProcessSignature L data with
    | .returned _ _ after => after
    | .blocked => n
    | .fault => n
  | .receive =>
    match n.GetResponseChannel.recv with
    | some (_, ch) => { n with resp := ch }
    | none => n

/-- The notifier after a sequence of events, oldest first. -/
def afterEvents (L : CryptoLib) (n : Notifier) (evs : List Event) : Notifier :=
  evs.foldl (afterEvent L) n

/-- Every non-nil signature queued on the response channel of `n` verifies against the
message and pool public key of `n0`. -/
def allVerified (L : CryptoLib) (n0 : Notifier) (n : Notifier) : Prop :=
  ∀ s, some s ∈ n.resp.buf → n0.verifySignature L s = .ret (true, none)

/-- A notifier with an empty response channel of capacity 1, for evaluating the model. -/
def sampleNotifier (poolPubKey : String) : Notifier :=
  { MessageID := "test", message := [104, 105, 33], poolPubKey := poolPubKey,
    resp := Chan.make 1 }

/-- A signature whose `R`, `S` read as the integers 3 and 1, and whose `Signature`
is the two bytes 3, 1. -/
def sampleSignature : SignatureData :=
  { Signature := [3, 1], SignatureRecovery := [0], R := [0, 3], S := [1], M := [104, 105, 33] }

/-- A signature whose `Signature` field is empty, with the `R`, `S` of `sampleSignature`. -/
def unsignedSignature : SignatureData :=
  { Signature := [], SignatureRecovery := [0], R := [0, 3], S := [1], M := [104, 105, 33] }

end Notifier

/-! ## p2p_message.go -/

/-- THORChainTSSMessageType represents the message type; the Go type is `uint8`. -/
structure THORChainTSSMessageType where
  code : Fin 256
  deriving DecidableEq, Repr

/-- TSSKeyGenMsg is the message directly generated by tss-lib package (`iota` = 0). -/
def TSSKeyGenMsg : THORChainTSSMessageType := ⟨0⟩

/-- TSSKeySignMsg is the message directly generated by tss lib for sign. -/
def TSSKeySignMsg : THORChainTSSMessageType := ⟨1⟩

/-- TSSKeyGenVerMsg is the message created on top to make sure everyone received the
same message. -/
def TSSKeyGenVerMsg : THORChainTSSMessageType := ⟨2⟩

/-- TSSKeySignVerMsg is the message created to make sure every party receives the same
broadcast message. -/
def TSSKeySignVerMsg : THORChainTSSMessageType := ⟨3⟩

/-- Unknown message. -/
def Unknown : THORChainTSSMessageType := ⟨4⟩

/-- String implements `fmt.Stringer`. -/
def THORChainTSSMessageType.String (msgType : THORChainTSSMessageType) : String :=
  if msgType = TSSKeyGenMsg then "TSSKeyGenMsg"
  else if msgType = TSSKeySignMsg then "TSSKeySignMsg"
  else if msgType = TSSKeyGenVerMsg then "TSSKeyGenVerMsg"
  else if msgType = TSSKeySignVerMsg then "TSSKeySignVerMsg"
  else "Unknown"

/-- The record of tss-lib that holds a party's id, moniker and key
(`tss.MessageWrapper_PartyID`). -/
structure MessageWrapper_PartyID where
  Id : String
  Moniker : String
  Key : Bytes
  deriving DecidableEq, Repr

/-- The party identifier of tss-lib, `tss.PartyID`, which is
`struct { *MessageWrapper_PartyID; Index int }`: the id, moniker and key are read through
the embedded pointer, which may be nil (as in `&tss.PartyID{}`). -/
structure PartyID where
  MessageWrapper_PartyID : Option MessageWrapper_PartyID
  Index : Int
  deriving DecidableEq, Repr

/-- The routing header of tss-lib (`tss.MessageRouting`); `From` and the entries of `To`
are pointers. -/
structure MessageRouting where
  From : Option PartyID
  To : List (Option PartyID)
  IsBroadcast : Bool
  deriving DecidableEq, Repr

/-- WireMessage is the message produced by the tss-lib package; `Routing` is a pointer. -/
structure WireMessage where
  Routing : Option MessageRouting
  RoundInfo : String
  Message : Bytes
  deriving DecidableEq, Repr

/-- GetCacheKey returns the key used to cache the message locally:
`fmt.Sprintf("%s-%s", m.Routing.From.Id, m.RoundInfo)`. Reading through a nil `Routing`,
a nil `From`, or the nil embedded pointer of `From` (whose field `Id` is) faults. -/
def WireMessage.GetCacheKey (m : WireMessage) : Outcome String :=
  match m.Routing with
  | none => .fault
  | some routing =>
    match routing.From with
    | none => .fault
    | some sender =>
      match sender.MessageWrapper_PartyID with
      | none => .fault
      | some party => .ret (party.Id ++ "-" ++ m.RoundInfo)

/-- The assignment `m[k] = v` on the entries of a `map[string]string`: the entry of an
existing key is replaced, a new key gets a new entry. -/
def setEntry (k v : String) : List (String × String) → List (String × String)
  | [] => [(k, v)]
  | (k', v') :: rest => if k' = k then (k, v) :: rest else (k', v') :: setEntry k v rest

/-- The keys of a list of entries. -/
def entryKeys (es : List (String × String)) : List String := es.map Prod.fst

theorem entryKeys_setEntry_of_mem (k v : String) (es : List (String × String))
    (h : k ∈ entryKeys es) : entryKeys (setEntry k v es) = entryKeys es := by
  induction es with
  | nil => simp [entryKeys] at h
  | cons e rest ih =>
    obtain ⟨k', v'⟩ := e
    by_cases hk : k' = k
    · simp [setEntry, entryKeys, hk]
    · have hmem : k ∈ entryKeys rest := by
        simp only [entryKeys, List.map_cons, List.mem_cons] at h
        rcases h with h | h
        · exact absurd h.symm hk
        · exact h
      have := ih hmem
      simp only [entryKeys] at this
      simp [setEntry, entryKeys, hk, this]

theorem entryKeys_setEntry_of_not_mem (k v : String) (es : List (String × String))
    (h : k ∉ entryKeys es) : entryKeys (setEntry k v es) = entryKeys es ++ [k] := by
  induction es with
  | nil => simp [setEntry, entryKeys]
  | cons e rest ih =>
    obtain ⟨k', v'⟩ := e
    have hk : ¬ k' = k := by
      intro hk
      exact h (by simp [entryKeys, hk])
    have hmem : k ∉ entryKeys rest := by
      intro hm
      exact h (by simp only [entryKeys, List.map_cons, List.mem_cons]; exact Or.inr hm)
    have := ih hmem
    simp only [entryKeys] at this
    simp [setEntry, entryKeys, hk, this]

theorem nodup_entryKeys_setEntry (k v : String) (es : List (String × String))
    (h : (entryKeys es).Nodup) : (entryKeys (setEntry k v es)).Nodup := by
  by_cases hk : k ∈ entryKeys es
  · rw [entryKeys_setEntry_of_mem k v es hk]
    exact h
  · rw [entryKeys_setEntry_of_not_mem k v es hk]
    exact List.Nodup.append h (List.nodup_singleton k) (by simpa using hk)

/-- A Go `map[string]string` (allocated): its entries, no key twice. -/
structure GoMap where
  entries : List (String × String)
  nodup : (entryKeys entries).Nodup

namespace GoMap

/-- The map `make(map[string]string)`. -/
def empty : GoMap := ⟨[], List.nodup_nil⟩

/-- The assignment `m[k] = v`. -/
def set (m : GoMap) (k v : String) : GoMap :=
  ⟨setEntry k v m.entries, nodup_entryKeys_setEntry k v m.entries m.nodup⟩

/-- The value of `len(m)`. -/
def len (m : GoMap) : Nat := m.entries.length

/-- The lookup `m[k]` with its presence flag. -/
def get (m : GoMap) (k : String) : Option String :=
  (m.entries.find? (fun e => e.1 == k)).map Prod.snd

end GoMap

/-- LocalCacheItem caches the unconfirmed broadcast message. The mutex is left out: the
methods are modelled as they run under the lock, one at a time. -/
structure LocalCacheItem where
  Msg : Option WireMessage
  Hash : String
  ConfirmedList : GoMap

namespace LocalCacheItem

/-- UpdateConfirmList adds the given party's hash into the confirm list. -/
def UpdateConfirmList (l : LocalCacheItem) (partyID hash : String) : LocalCacheItem :=
  { l with ConfirmedList := l.ConfirmedList.set partyID hash }

/-- TotalConfirmParty is the number of parties that already confirmed their hash. -/
def TotalConfirmParty (l : LocalCacheItem) : Nat := l.ConfirmedList.len

/-- The item after a sequence of `UpdateConfirmList (partyID, hash)` calls, oldest first. -/
def updateAll (l : LocalCacheItem) (calls : List (String × String)) : LocalCacheItem :=
  calls.foldl (fun item c => item.UpdateConfirmList c.1 c.2) l

/-- The number of entries of `ConfirmedList` whose hash equals the item's `Hash`. -/
def agreeing (l : LocalCacheItem) : Nat :=
  l.ConfirmedList.entries.countP (fun e => e.2 = l.Hash)

/-- The number of entries of `ConfirmedList` whose hash differs from the item's `Hash`. -/
def disagreeing (l : LocalCacheItem) : Nat :=
  l.ConfirmedList.entries.countP (fun e => ¬ e.2 = l.Hash)

end LocalCacheItem

/-- A wire message from the party with id `fromId` in round `roundInfo`, with no
recipients and an empty payload, for evaluating the model. -/
def sampleWireMessage (fromId roundInfo : String) : WireMessage :=
  { Routing := some { From := some { MessageWrapper_PartyID :=
                                       some { Id := fromId, Moniker := "", Key := [] },
                                     Index := 0 },
                      To := [], IsBroadcast := true },
    RoundInfo := roundInfo, Message := [] }

/-- A wire message in round `roundInfo` whose sender is `&tss.PartyID{}`: the sender is
there and its embedded pointer is nil. -/
def blankSenderWireMessage (roundInfo : String) : WireMessage :=
  { Routing := some { From := some { MessageWrapper_PartyID := none, Index := 0 },
                      To := [], IsBroadcast := true },
    RoundInfo := roundInfo, Message := [] }

/-- A cache item with the given hash, no message yet and an empty confirm list. -/
def sampleCacheItem (hash : String) : LocalCacheItem :=
  { Msg := none, Hash := hash, ConfirmedList := GoMap.empty }

/-! ## The task-done bookkeeping of a session -/

/-- Modelled from the spec: the part of a session (`TssCommon`, which is not among the
sources; only the test `TestCloseKeySignnotifyChannel` is) that handles task-done
notifications, once its party info is set. "The session counts distinct peers'
notifications; when the count reaches the number of known parties, the session closes
its notify channel." -/
structure TssCommon where
  knownParties : Nat
  finishedPeers : List String
  notifyClosed : Bool
  deriving DecidableEq, Repr

namespace TssCommon

/-- Modelled from the spec: a session whose party info names `knownParties` parties and
that has processed no notification yet. -/
def fresh (knownParties : Nat) : TssCommon :=
  { knownParties := knownParties, finishedPeers := [], notifyClosed := false }

/-- Modelled from the spec: `ProcessOneMessage` on a `TSSTaskDone` frame received from
`peerID` (the function is not among the sources). "A second notification from the same
peer is rejected as `duplicated notification from peer <id> ignored`"; a first one is
counted, and the notify channel is closed when the count reaches the number of known
parties. The result is the returned error and the session afterwards. -/
def ProcessOneMessage (t : TssCommon) (peerID : String) : Option GoError × TssCommon :=
  if peerID ∈ t.finishedPeers then
    (some (GoError.new ("duplicated notification from peer " ++ peerID ++ " ignored")), t)
  else
    let finished := t.finishedPeers ++ [peerID]
    (none, { t with finishedPeers := finished,
                    notifyClosed := t.notifyClosed || decide (finished.length = t.knownParties) })

/-- The errors returned when the `TSSTaskDone` frames of the peers `peers` are handed to
`ProcessOneMessage` one after the other. -/
def ProcessFrames (t : TssCommon) : List String → List (Option GoError)
  | [] => []
  | peerID :: rest => (t.ProcessOneMessage peerID).1 :: ProcessFrames (t.ProcessOneMessage peerID).2 rest

end TssCommon

/-! ## The subscription registry of the transport -/

/-- A reference to an allocated Go channel `chan *Message`; the nil channel is not one. -/
structure ChanRef where
  id : Nat
  deriving DecidableEq, Repr

/-- Modelled from the spec: the subscription registry of the transport (`Communication`,
which is not among the sources; only the test `TestBasicCommunication` is). It is "a
subscription registry indexed by `(type, id)`" that "for each message type and each active
`MessageID`, holds at most one subscriber channel". -/
structure Communication where
  subscribers : List ((THORChainTSSMessageType × String) × ChanRef)
  deriving DecidableEq, Repr

/-- Modelled from the spec: the registry of a newly created transport (`NewCommunication`
is not among the sources), which has no subscriber. -/
def NewCommunication : Communication := ⟨[]⟩

namespace Communication

/-- Modelled from the spec: `getSubscriber(type, id)` (not among the sources) returns the
subscriber channel of the pair, and "returns nothing (the null value)" for a pair that has
none. -/
def getSubscriber (c : Communication) (topic : THORChainTSSMessageType) (msgID : String) :
    Option ChanRef :=
  (c.subscribers.find? (fun e => e.1 == (topic, msgID))).map Prod.snd

/-- Modelled from the spec: `SetSubscribe(msgType, msgID, channel)` (not among the
sources) makes `channel` the one subscriber channel of the pair. -/
def SetSubscribe (c : Communication) (topic : THORChainTSSMessageType) (msgID : String)
    (channel : ChanRef) : Communication :=
  ⟨((topic, msgID), channel) :: c.subscribers.filter (fun e => !(e.1 == (topic, msgID)))⟩

/-- Modelled from the spec: `CancelSubscribe(msgType, msgID)` (not among the sources)
drops the subscriber channel of the pair; "cancelling an unknown subscription is a no-op". -/
def CancelSubscribe (c : Communication) (topic : THORChainTSSMessageType) (msgID : String) :
    Communication :=
  ⟨c.subscribers.filter (fun e => !(e.1 == (topic, msgID)))⟩

/-- A call on the registry: `SetSubscribe` or `CancelSubscribe`. -/
inductive Call where
  | set (topic : THORChainTSSMessageType) (msgID : String) (channel : ChanRef)
  | cancel (topic : THORChainTSSMessageType) (msgID : String)
  deriving DecidableEq, Repr

/-- The registry after one call. -/
def afterCall (c : Communication) : Call → Communication
  | .set t i ch => c.SetSubscribe t i ch
  | .cancel t i => c.CancelSubscribe t i

/-- The registry after a sequence of calls, oldest first. -/
def afterCalls (c : Communication) (calls : List Call) : Communication :=
  calls.foldl afterCall c

end Communication

/-! ## Theorems: keysign/notifier.go -/

namespace Notifier

/-- The verdict of `verifySignature` depends on the notifier only through its message
and its pool public key. -/
theorem verifySignature_congr (L : CryptoLib) (n n' : Notifier) (d : SignatureData)
    (hm : n'.message = n.message) (hk : n'.poolPubKey = n.poolPubKey) :
    n'.verifySignature L d = n.verifySignature L d := by
  simp only [verifySignature, hm, hk]

theorem ProcessSignature_of_fault (L : CryptoLib) (n : Notifier) (d : SignatureData)
    (h : n.verifySignature L d = .fault) : n.ProcessSignature L (some d) = .fault := by
  simp [ProcessSignature, h]

theorem ProcessSignature_of_error (L : CryptoLib) (n : Notifier) (d : SignatureData)
    (b : Bool) (e : GoError) (h : n.verifySignature L d = .ret (b, some e)) :
    n.ProcessSignature L (some d) =
      .returned false (some (GoError.wrap "fail to verify signature: " e)) n := by
  simp [ProcessSignature, h]

theorem ProcessSignature_of_false (L : CryptoLib) (n : Notifier) (d : SignatureData)
    (h : n.verifySignature L d = .ret (false, none)) :
    n.ProcessSignature L (some d) = .returned false none n := by
  simp [ProcessSignature, h]

theorem ProcessSignature_of_true (L : CryptoLib) (n : Notifier) (d : SignatureData)
    (h : n.verifySignature L d = .ret (true, none)) :
    n.ProcessSignature L (some d) =
      if n.resp.buf.length < n.resp.cap then
        .returned true none { n with resp := ⟨n.resp.buf ++ [some d], n.resp.cap⟩ }
      else .blocked := by
  by_cases hroom : n.resp.buf.length < n.resp.cap <;>
    simp [ProcessSignature, h, Chan.send, hroom]

theorem ProcessSignature_nil (L : CryptoLib) (n : Notifier) :
    n.ProcessSignature L none =
      if n.resp.buf.length < n.resp.cap then
        .returned true none { n with resp := ⟨n.resp.buf ++ [none], n.resp.cap⟩ }
      else .blocked := by
  by_cases hroom : n.resp.buf.length < n.resp.cap <;>
    simp [ProcessSignature, Chan.send, hroom]

/-- An event changes neither the message nor the pool public key, and it keeps every
queued non-nil signature verified. -/
theorem afterEvent_keeps (L : CryptoLib) (n0 n : Notifier) (ev : Event)
    (hm : n.message = n0.message) (hk : n.poolPubKey = n0.poolPubKey)
    (hv : allVerified L n0 n) :
    (n.afterEvent L ev).message = n0.message ∧
    (n.afterEvent L ev).poolPubKey = n0.poolPubKey ∧
    allVerified L n0 (n.afterEvent L ev) := by
  cases ev with
  | receive =>
    unfold afterEvent GetResponseChannel Chan.recv
    cases hb : n.resp.buf with
    | nil => simp only [hb]; exact ⟨hm, hk, hv⟩
    | cons x rest =>
      simp only [hb]
      refine ⟨hm, hk, ?_⟩
      intro s hs
      apply hv s
      rw [hb]
      exact List.mem_cons_of_mem x hs
  | process data =>
    cases data with
    | none =>
      simp only [afterEvent, ProcessSignature_nil]
      by_cases hroom : n.resp.buf.length < n.resp.cap
      · simp only [hroom, if_true]
        refine ⟨hm, hk, ?_⟩
        intro s hs
        simp only [List.mem_append, List.mem_singleton] at hs
        rcases hs with hs | hs
        · exact hv s hs
        · cases hs
      · simp only [hroom, if_false]
        exact ⟨hm, hk, hv⟩
    | some d =>
      have hcongr := verifySignature_congr L n0 n d hm hk
      cases hver : n.verifySignature L d with
      | fault =>
        simp only [afterEvent, ProcessSignature_of_fault L n d hver]
        exact ⟨hm, hk, hv⟩
      | ret r =>
        obtain ⟨b, e⟩ := r
        cases e with
        | some err =>
          simp only [afterEvent, ProcessSignature_of_error L n d b err hver]
          exact ⟨hm, hk, hv⟩
        | none =>
          cases b with
          | false =>
            simp only [afterEvent, ProcessSignature_of_false L n d hver]
            exact ⟨hm, hk, hv⟩
          | true =>
            simp only [afterEvent, ProcessSignature_of_true L n d hver]
            by_cases hroom : n.resp.buf.length < n.resp.cap
            · simp only [hroom, if_true]
              refine ⟨hm, hk, ?_⟩
              intro s hs
              simp only [List.mem_append, List.mem_singleton] at hs
              rcases hs with hs | hs
              · exact hv s hs
              · have hsd : s = d := by
                  injection hs
                rw [hsd, ← hcongr]
                exact hver
            · simp only [hroom, if_false]
              exact ⟨hm, hk, hv⟩

/-- A sequence of events keeps every queued non-nil signature verified. -/
theorem afterEvents_keeps (L : CryptoLib) (n0 : Notifier) (evs : List Event) :
    ∀ n : Notifier, n.message = n0.message → n.poolPubKey = n0.poolPubKey →
      allVerified L n0 n →
      (n.afterEvents L evs).message = n0.message ∧
      (n.afterEvents L evs).poolPubKey = n0.poolPubKey ∧
      allVerified L n0 (n.afterEvents L evs) := by
  induction evs with
  | nil => intro n hm hk hv; exact ⟨hm, hk, hv⟩
  | cons ev rest ih =>
    intro n hm hk hv
    obtain ⟨hm', hk', hv'⟩ := afterEvent_keeps L n0 n ev hm hk hv
    exact ih (n.afterEvent L ev) hm' hk' hv'

/-- Claim C1. When the response channel has room, `ProcessSignature d` on a non-nil `d`
returns `(true, nil)` with exactly `d` appended to the channel if and only if
`verifySignature d` returns `(true, nil)`; any `(true, _)` return on a non-nil `d` means
`d` verified. When `verifySignature` returns `(false, nil)` it returns `(false, nil)`, and
when `verifySignature` returns an error `e` it returns `false` with `e` wrapped under the
prefix "fail to verify signature: "; in both cases the notifier, channel included, is
unchanged. Hence, through any sequence of calls and receives, every non-nil signature
on the channel has verified against the notifier's pool public key. -/
theorem ProcessSignature_delivers_iff_verified (L : CryptoLib) (n : Notifier)
    (d : SignatureData) (hroom : n.resp.buf.length < n.resp.cap) :
    (n.ProcessSignature L (some d) =
        .returned true none { n with resp := ⟨n.resp.buf ++ [some d], n.resp.cap⟩ } ↔
      n.verifySignature L d = .ret (true, none)) ∧
    (∀ err after, n.ProcessSignature L (some d) = .returned true err after →
      n.verifySignature L d = .ret (true, none)) ∧
    (n.verifySignature L d = .ret (false, none) →
      n.ProcessSignature L (some d) = .returned false none n) ∧
    (∀ b e, n.verifySignature L d = .ret (b, some e) →
      n.ProcessSignature L (some d) =
          .returned false (some (GoError.wrap "fail to verify signature: " e)) n ∧
        (GoError.wrap "fail to verify signature: " e).Error =
          "fail to verify signature: " ++ e.Error ∧
        (GoError.wrap "fail to verify signature: " e).Unwrap = some e) ∧
    (allVerified L n n → ∀ evs : List Event, ∀ s,
      some s ∈ (n.afterEvents L evs).GetResponseChannel.buf →
        n.verifySignature L s = .ret (true, none)) := by
  have key : ∀ err after, n.ProcessSignature L (some d) = .returned true err after →
      n.verifySignature L d = .ret (true, none) := by
    intro err after h
    cases hver : n.verifySignature L d with
    | fault => rw [ProcessSignature_of_fault L n d hver] at h; cases h
    | ret r =>
      obtain ⟨b, e⟩ := r
      cases e with
      | some e' => rw [ProcessSignature_of_error L n d b e' hver] at h; cases h
      | none =>
        cases b with
        | false => rw [ProcessSignature_of_false L n d hver] at h; cases h
        | true => rfl
  refine ⟨⟨fun h => key _ _ h, ?_⟩, key, ProcessSignature_of_false L n d, ?_, ?_⟩
  · intro hver
    rw [ProcessSignature_of_true L n d hver, if_pos hroom]
  · intro b e hver
    exact ⟨ProcessSignature_of_error L n d b e hver, rfl, rfl⟩
  · intro hv evs s hs
    exact (afterEvents_keeps L n evs n rfl rfl hv).2.2 s hs

/-- Claim C1 at a concrete input: the sample secp256k1 notifier delivers the sample
signature, which verifies. -/
theorem ProcessSignature_delivers_iff_verified_witness :
    (sampleNotifier "secp").resp.buf.length < (sampleNotifier "secp").resp.cap ∧
    (sampleNotifier "secp").ProcessSignature toyLib (some sampleSignature) =
      .returned true none
        { sampleNotifier "secp" with resp := ⟨[some sampleSignature], 1⟩ } :=
  ⟨by decide,
   (ProcessSignature_delivers_iff_verified toyLib (sampleNotifier "secp") sampleSignature
      (by decide)).1.2 (by decide)⟩

end Notifier

/-- Appending a byte to a slice multiplies the integer it reads as by 256 and adds the
byte: `SetBytes` reads big-endian. -/
theorem SetBytes_append (b : Bytes) (x : Byte) :
    SetBytes (b ++ [x]) = SetBytes b * 256 + x.val := by
  simp [SetBytes, List.foldl_append]

/-- A notifier returned by `NewNotifier` holds the three arguments and a fresh channel. -/
theorem NewNotifier_ok (messageID : String) (message : Bytes) (poolPubKey : String)
    (n : Notifier) (h : NewNotifier messageID message poolPubKey = .ok n) :
    n = { MessageID := messageID, message := message, poolPubKey := poolPubKey,
          resp := Chan.make 1 } := by
  unfold NewNotifier at h
  split_ifs at h
  injection h with h
  exact h.symm

namespace Notifier

/-- Claim C2. When the pool public key decodes to a secp256k1 key that parses as the
point `pub`, `verifySignature d` returns `(ecdsaVerify pub message R S, nil)` where `R`
and `S` are `d.R` and `d.S` read as unsigned big-endian integers and `message` is the
byte string the notifier was constructed with, passed unchanged; signatures that agree
on `R` and `S` get the same result, whatever their other fields. -/
theorem verifySignature_secp256k1 (L : CryptoLib) (n : Notifier) (d : SignatureData)
    (pk : Bytes) (pub : CurvePoint)
    (hdec : L.GetPubKeyFromBech32 n.poolPubKey = .ok (.PubKeySecp256k1 pk))
    (hparse : L.btcecParsePubKey pk = .ok pub) :
    n.verifySignature L d =
        .ret (L.ecdsaVerify pub n.message (SetBytes d.R) (SetBytes d.S), none) ∧
    (∀ messageID message poolPubKey,
      NewNotifier messageID message poolPubKey = .ok n → n.message = message) ∧
    (SetBytes [] = 0 ∧ ∀ (b : Bytes) (x : Byte), SetBytes (b ++ [x]) = SetBytes b * 256 + x.val) ∧
    (∀ d' : SignatureData, d'.R = d.R → d'.S = d.S →
      n.verifySignature L d' = n.verifySignature L d) := by
  refine ⟨?_, ?_, ⟨rfl, SetBytes_append⟩, ?_⟩
  · simp only [verifySignature, hdec, hparse]
  · intro messageID message poolPubKey h
    rw [NewNotifier_ok messageID message poolPubKey n h]
  · intro d' hR hS
    simp only [verifySignature, hdec, hparse, hR, hS]

/-- Claim C2 at a concrete input: the sample secp256k1 notifier, whose key parses as the
point (2, 2), verifies the sample signature with `R = 3`, `S = 1`. -/
theorem verifySignature_secp256k1_witness :
    toyLib.GetPubKeyFromBech32 (sampleNotifier "secp").poolPubKey
        = .ok (.PubKeySecp256k1 [2, 7]) ∧
    toyLib.btcecParsePubKey [2, 7] = .ok ⟨2, 2⟩ ∧
    (sampleNotifier "secp").verifySignature toyLib sampleSignature =
      .ret (toyLib.ecdsaVerify ⟨2, 2⟩ [104, 105, 33] 3 1, none) :=
  ⟨by decide, by decide,
   (verifySignature_secp256k1 toyLib (sampleNotifier "secp") sampleSignature [2, 7] ⟨2, 2⟩
      (by decide) (by decide)).1⟩

/-- Claim C3. When the pool public key decodes to an Ed25519 key that parses as the
point `pk` and `d.Signature` parses as the Ed25519 signature `(R, S)`,
`verifySignature d` returns `(edwardsVerify pk message R S, nil)` with `message` the
notifier's stored bytes, passed unchanged; signatures with the same `Signature` bytes
get the same result, whatever their `R` and `S` fields. -/
theorem verifySignature_ed25519 (L : CryptoLib) (n : Notifier) (d : SignatureData)
    (rawPk : Bytes) (pk : CurvePoint) (sig : EdSignature)
    (hdec : L.GetPubKeyFromBech32 n.poolPubKey = .ok (.PubKeyEd25519 rawPk))
    (hparse : L.edwardsParsePubKey rawPk = .ok pk)
    (hsig : L.edwardsParseSignature d.Signature = .ok sig) :
    n.verifySignature L d = .ret (L.edwardsVerify pk n.message sig.R sig.S, none) ∧
    (∀ messageID message poolPubKey,
      NewNotifier messageID message poolPubKey = .ok n → n.message = message) ∧
    (∀ d' : SignatureData, d'.Signature = d.Signature →
      n.verifySignature L d' = n.verifySignature L d) := by
  refine ⟨?_, ?_, ?_⟩
  · simp only [verifySignature, hdec, hparse, hsig]
  · intro messageID message poolPubKey h
    rw [NewNotifier_ok messageID message poolPubKey n h]
  · intro d' hS
    simp only [verifySignature, hdec, hparse, hS]

/-- Claim C3 at a concrete input: the sample Ed25519 notifier, whose key parses as the
point (9, 1), verifies the sample signature, whose `Signature` parses as (3, 1). -/
theorem verifySignature_ed25519_witness :
    toyLib.GetPubKeyFromBech32 (sampleNotifier "ed").poolPubKey = .ok (.PubKeyEd25519 [9]) ∧
    toyLib.edwardsParsePubKey [9] = .ok ⟨9, 1⟩ ∧
    toyLib.edwardsParseSignature sampleSignature.Signature = .ok ⟨3, 1⟩ ∧
    (sampleNotifier "ed").verifySignature toyLib sampleSignature =
      .ret (toyLib.edwardsVerify ⟨9, 1⟩ [104, 105, 33] 3 1, none) :=
  ⟨by decide, by decide, by decide,
   (verifySignature_ed25519 toyLib (sampleNotifier "ed") sampleSignature [9] ⟨9, 1⟩ ⟨3, 1⟩
      (by decide) (by decide) (by decide)).1⟩

/-- Claim C4. When the pool public key decodes to a key that is neither secp256k1 nor
Ed25519, `verifySignature d` returns `false` with the error "invalid pubkey type", and
`ProcessSignature d` returns `false` with an error (that one, wrapped) and leaves the
notifier and its response channel unchanged. -/
theorem verifySignature_invalid_pubkey_type (L : CryptoLib) (n : Notifier)
    (d : SignatureData) (typeName : String) (raw : Bytes)
    (hdec : L.GetPubKeyFromBech32 n.poolPubKey = .ok (.otherKey typeName raw)) :
    n.verifySignature L d = .ret (false, some (GoError.new "invalid pubkey type")) ∧
    (GoError.new "invalid pubkey type").Error = "invalid pubkey type" ∧
    n.ProcessSignature L (some d) =
      .returned false
        (some (GoError.wrap "fail to verify signature: " (GoError.new "invalid pubkey type")))
        n ∧
    (∀ ok err after, n.ProcessSignature L (some d) = .returned ok err after →
      ok = false ∧ err ≠ none ∧ after.GetResponseChannel = n.GetResponseChannel) := by
  have hver : n.verifySignature L d =
      .ret (false, some (GoError.new "invalid pubkey type")) := by
    simp only [verifySignature, hdec]
  have hps := ProcessSignature_of_error L n d false _ hver
  refine ⟨hver, rfl, hps, ?_⟩
  intro ok err after h
  rw [hps] at h
  injection h with h1 h2 h3
  subst h1 h2 h3
  exact ⟨rfl, by simp, rfl⟩

/-- Claim C4 at a concrete input: the sample notifier with an sr25519 pool key. -/
theorem verifySignature_invalid_pubkey_type_witness :
    toyLib.GetPubKeyFromBech32 (sampleNotifier "sr").poolPubKey
        = .ok (.otherKey "PubKeySr25519" [5]) ∧
    (sampleNotifier "sr").verifySignature toyLib sampleSignature =
      .ret (false, some (GoError.new "invalid pubkey type")) :=
  ⟨by decide,
   (verifySignature_invalid_pubkey_type toyLib (sampleNotifier "sr") sampleSignature
      "PubKeySr25519" [5] (by decide)).1⟩

end Notifier

/-- Claim C5. `NewNotifier` returns an error exactly when one of its three arguments is
empty: "messageID is empty" when the message id is empty, otherwise "message is nil"
when the message has length zero, otherwise "pool pubkey is empty"; when all three are
non-empty it returns no error and a notifier holding exactly the three arguments. -/
theorem NewNotifier_spec (messageID : String) (message : Bytes) (poolPubKey : String) :
    ((∃ e, NewNotifier messageID message poolPubKey = .error e) ↔
      (messageID.length = 0 ∨ message.length = 0 ∨ poolPubKey.length = 0)) ∧
    (messageID.length = 0 →
      NewNotifier messageID message poolPubKey = .error (GoError.new "messageID is empty")) ∧
    (messageID.length ≠ 0 → message.length = 0 →
      NewNotifier messageID message poolPubKey = .error (GoError.new "message is nil")) ∧
    (messageID.length ≠ 0 → message.length ≠ 0 → poolPubKey.length = 0 →
      NewNotifier messageID message poolPubKey = .error (GoError.new "pool pubkey is empty")) ∧
    (messageID.length ≠ 0 → message.length ≠ 0 → poolPubKey.length ≠ 0 →
      ∃ n, NewNotifier messageID message poolPubKey = .ok n ∧ n.MessageID = messageID ∧
        n.message = message ∧ n.poolPubKey = poolPubKey) := by
  by_cases h1 : messageID.length = 0
  · simp [NewNotifier, h1]
  · by_cases h2 : message.length = 0
    · simp [NewNotifier, h1, h2]
    · by_cases h3 : poolPubKey.length = 0
      · simp [NewNotifier, h1, h2, h3]
      · simp [NewNotifier, h1, h2, h3]

namespace Notifier

/-- Claim C6. A notifier freshly returned by `NewNotifier` has an empty response channel
of capacity 1; `ProcessSignature nil` on it returns `(true, nil)` (it neither blocks nor
faults), whatever the cryptographic library is, so without consulting it; afterwards the
channel `GetResponseChannel` returns holds exactly one item, the nil signature. -/
theorem ProcessSignature_nil_on_fresh (L : CryptoLib) (messageID : String)
    (message : Bytes) (poolPubKey : String) (n : Notifier)
    (hnew : NewNotifier messageID message poolPubKey = .ok n) :
    n.GetResponseChannel.buf = [] ∧ n.GetResponseChannel.cap = 1 ∧
    (∃ after, n.ProcessSignature L none = .returned true none after ∧
      after.GetResponseChannel.buf = [none] ∧
      after.GetResponseChannel.recv = some (none, ⟨[], 1⟩) ∧
      after.MessageID = n.MessageID ∧ after.message = n.message ∧
      after.poolPubKey = n.poolPubKey) ∧
    (∀ L' : CryptoLib, n.ProcessSignature L' none = n.ProcessSignature L none) := by
  have hn := NewNotifier_ok messageID message poolPubKey n hnew
  subst hn
  refine ⟨rfl, rfl, ⟨_, rfl, rfl, rfl, rfl, rfl, rfl⟩, fun _ => rfl⟩

/-- Claim C6 at a concrete input: the notifier for message id "test", message "hi!" and
pool key "secp". -/
theorem ProcessSignature_nil_on_fresh_witness :
    NewNotifier "test" [104, 105, 33] "secp" = .ok (sampleNotifier "secp") ∧
    (sampleNotifier "secp").GetResponseChannel.buf = [] ∧
    (sampleNotifier "secp").GetResponseChannel.cap = 1 ∧
    ∀ L' : CryptoLib, (sampleNotifier "secp").ProcessSignature L' none =
      (sampleNotifier "secp").ProcessSignature toyLib none :=
  ⟨by decide,
   (ProcessSignature_nil_on_fresh toyLib "test" [104, 105, 33] "secp"
      (sampleNotifier "secp") (by decide)).1,
   (ProcessSignature_nil_on_fresh toyLib "test" [104, 105, 33] "secp"
      (sampleNotifier "secp") (by decide)).2.1,
   (ProcessSignature_nil_on_fresh toyLib "test" [104, 105, 33] "secp"
      (sampleNotifier "secp") (by decide)).2.2.2⟩

end Notifier

/-! ## Theorems: p2p_message.go -/

/-- Every value that is not one of the four named message kinds renders as "Unknown". -/
theorem String_default (msgType : THORChainTSSMessageType)
    (h0 : msgType ≠ TSSKeyGenMsg) (h1 : msgType ≠ TSSKeySignMsg)
    (h2 : msgType ≠ TSSKeyGenVerMsg) (h3 : msgType ≠ TSSKeySignVerMsg) :
    msgType.String = "Unknown" := by
  simp [THORChainTSSMessageType.String, h0, h1, h2, h3]

/-- The String form of any value is one of the five names the source lists. -/
theorem String_range (msgType : THORChainTSSMessageType) :
    msgType.String = "TSSKeyGenMsg" ∨ msgType.String = "TSSKeySignMsg" ∨
    msgType.String = "TSSKeyGenVerMsg" ∨ msgType.String = "TSSKeySignVerMsg" ∨
    msgType.String = "Unknown" := by
  unfold THORChainTSSMessageType.String
  split_ifs <;> simp

/-- Claim C7, as stated, fails on `p2p_message.go`: no value of the message type has the
String form "TSSControlMsg" or "TSSTaskDone"; the values 4 and 5 that would follow
`TSSKeySignVerMsg` in the claim's list both render as "Unknown". -/
theorem String_no_control_or_taskdone :
    (¬ ∃ msgType : THORChainTSSMessageType,
        msgType.String = "TSSControlMsg" ∨ msgType.String = "TSSTaskDone") ∧
    THORChainTSSMessageType.String ⟨4⟩ = "Unknown" ∧
    THORChainTSSMessageType.String ⟨5⟩ = "Unknown" := by
  refine ⟨?_, by decide, by decide⟩
  rintro ⟨msgType, h⟩
  rcases String_range msgType with h' | h' | h' | h' | h' <;>
    rw [h'] at h <;> revert h <;> decide

/-- Claim C7, amended. For each of TSSKeyGenMsg, TSSKeySignMsg, TSSKeyGenVerMsg,
TSSKeySignVerMsg and Unknown, `String` returns exactly the type's own name, so distinct
types among these five have distinct String forms; every other value of the type
renders as "Unknown". -/
theorem String_names :
    TSSKeyGenMsg.String = "TSSKeyGenMsg" ∧ TSSKeySignMsg.String = "TSSKeySignMsg" ∧
    TSSKeyGenVerMsg.String = "TSSKeyGenVerMsg" ∧
    TSSKeySignVerMsg.String = "TSSKeySignVerMsg" ∧ Unknown.String = "Unknown" ∧
    (∀ a ∈ [TSSKeyGenMsg, TSSKeySignMsg, TSSKeyGenVerMsg, TSSKeySignVerMsg, Unknown],
      ∀ b ∈ [TSSKeyGenMsg, TSSKeySignMsg, TSSKeyGenVerMsg, TSSKeySignVerMsg, Unknown],
        a.String = b.String → a = b) ∧
    (∀ msgType : THORChainTSSMessageType,
      msgType ∉ [TSSKeyGenMsg, TSSKeySignMsg, TSSKeyGenVerMsg, TSSKeySignVerMsg] →
        msgType.String = "Unknown") := by
  refine ⟨by decide, by decide, by decide, by decide, by decide, by decide, ?_⟩
  intro msgType h
  simp only [List.mem_cons, List.mem_singleton, List.not_mem_nil, or_false, not_or] at h
  exact String_default msgType h.1 h.2.1 h.2.2.1 h.2.2.2

/-- Two lists that agree after a separator, neither having the separator before it, agree
before it and after it. -/
theorem split_at_separator (x : Char) :
    ∀ a c b d : List Char, x ∉ a → x ∉ c → a ++ x :: b = c ++ x :: d → a = c ∧ b = d := by
  intro a
  induction a with
  | nil =>
    intro c b d _ hc h
    cases c with
    | nil =>
      simp only [List.nil_append, List.cons.injEq, true_and] at h
      exact ⟨rfl, h⟩
    | cons y c' =>
      simp only [List.nil_append, List.cons_append, List.cons.injEq] at h
      exact absurd (by rw [h.1]; exact List.mem_cons_self _ _) hc
  | cons z a' ih =>
    intro c b d ha hc h
    cases c with
    | nil =>
      simp only [List.nil_append, List.cons_append, List.cons.injEq] at h
      exact absurd (by rw [← h.1]; exact List.mem_cons_self _ _) ha
    | cons y c' =>
      simp only [List.cons_append, List.cons.injEq] at h
      have ha' : x ∉ a' := fun hm => ha (List.mem_cons_of_mem _ hm)
      have hc' : x ∉ c' := fun hm => hc (List.mem_cons_of_mem _ hm)
      obtain ⟨h1, h2⟩ := ih c' b d ha' hc' h.2
      exact ⟨by rw [h.1, h1], h2⟩

/-- A cache key built from a hyphen-free id determines the id and the round info. -/
theorem cacheKey_injective (id1 id2 round1 round2 : String)
    (h1 : '-' ∉ id1.toList) (h2 : '-' ∉ id2.toList)
    (h : id1 ++ "-" ++ round1 = id2 ++ "-" ++ round2) : id1 = id2 ∧ round1 = round2 := by
  have hd := congrArg String.data h
  simp only [String.data_append] at hd
  rw [List.append_assoc, List.append_assoc] at hd
  simp only [List.singleton_append] at hd
  obtain ⟨ha, hb⟩ := split_at_separator '-' id1.data id2.data round1.data round2.data h1 h2 hd
  exact ⟨String.ext ha, String.ext hb⟩

/-- The cache key of a message is a fault exactly when its routing, its sender or the
embedded pointer of its sender is nil. -/
theorem GetCacheKey_fault_iff (m : WireMessage) :
    m.GetCacheKey = .fault ↔
      m.Routing = none ∨
      (∃ r, m.Routing = some r ∧ r.From = none) ∨
      (∃ r s, m.Routing = some r ∧ r.From = some s ∧ s.MessageWrapper_PartyID = none) := by
  unfold WireMessage.GetCacheKey
  cases hr : m.Routing with
  | none => simp
  | some r =>
    cases hs : r.From with
    | none => simp [hs]
    | some sender =>
      cases hw : sender.MessageWrapper_PartyID with
      | none => simp [hs, hw]
      | some w => simp [hs, hw]

/-- Claim C8, as stated, fails: the messages from sender "a-b" in round "c" and from
sender "a" in round "b-c" have the same cache key "a-b-c", with different senders and
different round infos. -/
theorem GetCacheKey_collision :
    (sampleWireMessage "a-b" "c").GetCacheKey = .ret "a-b-c" ∧
    (sampleWireMessage "a" "b-c").GetCacheKey = .ret "a-b-c" ∧
    ¬ (∀ m1 m2 : WireMessage, ∀ r1 r2 : MessageRouting, ∀ s1 s2 : PartyID,
        ∀ w1 w2 : MessageWrapper_PartyID,
        m1.Routing = some r1 → r1.From = some s1 → s1.MessageWrapper_PartyID = some w1 →
        m2.Routing = some r2 → r2.From = some s2 → s2.MessageWrapper_PartyID = some w2 →
        m1.GetCacheKey = m2.GetCacheKey → w1.Id = w2.Id ∧ m1.RoundInfo = m2.RoundInfo) := by
  refine ⟨by decide, by decide, ?_⟩
  intro h
  have := h (sampleWireMessage "a-b" "c") (sampleWireMessage "a" "b-c") _ _ _ _ _ _
    rfl rfl rfl rfl rfl rfl (by decide)
  revert this
  decide

/-- Claim C8, amended. For wire messages `m1`, `m2` whose routing, sender and embedded
party record of the sender are all non-nil and whose sender ids contain no hyphen,
`GetCacheKey` returns the sender id, a hyphen and the round info, and equal cache keys
imply equal sender ids and equal round infos. A message whose sender has a nil embedded
party record has no cache key: `GetCacheKey` faults on it. -/
theorem GetCacheKey_unique (m1 m2 : WireMessage) (r1 r2 : MessageRouting) (s1 s2 : PartyID)
    (w1 w2 : MessageWrapper_PartyID)
    (hr1 : m1.Routing = some r1) (hs1 : r1.From = some s1)
    (hw1 : s1.MessageWrapper_PartyID = some w1)
    (hr2 : m2.Routing = some r2) (hs2 : r2.From = some s2)
    (hw2 : s2.MessageWrapper_PartyID = some w2)
    (hid1 : '-' ∉ w1.Id.toList) (hid2 : '-' ∉ w2.Id.toList) :
    m1.GetCacheKey = .ret (w1.Id ++ "-" ++ m1.RoundInfo) ∧
    m2.GetCacheKey = .ret (w2.Id ++ "-" ++ m2.RoundInfo) ∧
    (m1.GetCacheKey = m2.GetCacheKey → w1.Id = w2.Id ∧ m1.RoundInfo = m2.RoundInfo) ∧
    (∀ (m : WireMessage) (r : MessageRouting) (s : PartyID), m.Routing = some r →
      r.From = some s → s.MessageWrapper_PartyID = none → m.GetCacheKey = .fault) := by
  have k1 : m1.GetCacheKey = .ret (w1.Id ++ "-" ++ m1.RoundInfo) := by
    simp only [WireMessage.GetCacheKey, hr1, hs1, hw1]
  have k2 : m2.GetCacheKey = .ret (w2.Id ++ "-" ++ m2.RoundInfo) := by
    simp only [WireMessage.GetCacheKey, hr2, hs2, hw2]
  refine ⟨k1, k2, ?_, ?_⟩
  · intro h
    rw [k1, k2] at h
    injection h with h
    exact cacheKey_injective _ _ _ _ hid1 hid2 h
  · intro m r s hr hs hw
    exact (GetCacheKey_fault_iff m).mpr (Or.inr (Or.inr ⟨r, s, hr, hs, hw⟩))

/-- Claim C8, amended, at a concrete input: the messages of parties "1" and "2" in round
"KGRound1Message" have the cache keys "1-KGRound1Message" and "2-KGRound1Message", and
the message of the sender `&tss.PartyID{}` has none. -/
theorem GetCacheKey_unique_witness :
    '-' ∉ ("1" : String).toList ∧ '-' ∉ ("2" : String).toList ∧
    (sampleWireMessage "1" "KGRound1Message").GetCacheKey = .ret ("1" ++ "-" ++ "KGRound1Message") ∧
    (sampleWireMessage "2" "KGRound1Message").GetCacheKey = .ret ("2" ++ "-" ++ "KGRound1Message") ∧
    (blankSenderWireMessage "KGRound1Message").GetCacheKey = .fault :=
  ⟨by decide, by decide,
   (GetCacheKey_unique (sampleWireMessage "1" "KGRound1Message")
      (sampleWireMessage "2" "KGRound1Message") _ _ _ _ _ _ rfl rfl rfl rfl rfl rfl
      (by decide) (by decide)).1,
   (GetCacheKey_unique (sampleWireMessage "1" "KGRound1Message")
      (sampleWireMessage "2" "KGRound1Message") _ _ _ _ _ _ rfl rfl rfl rfl rfl rfl
      (by decide) (by decide)).2.1,
   (GetCacheKey_unique (sampleWireMessage "1" "KGRound1Message")
      (sampleWireMessage "2" "KGRound1Message") _ _ _ _ _ _ rfl rfl rfl rfl rfl rfl
      (by decide) (by decide)).2.2.2 (blankSenderWireMessage "KGRound1Message") _ _
      rfl rfl rfl⟩

/-- An entry of the list after `m[k] = v` is the new entry or an entry from before. -/
theorem mem_setEntry (k v : String) (es : List (String × String)) (e : String × String)
    (h : e ∈ setEntry k v es) : e = (k, v) ∨ e ∈ es := by
  induction es with
  | nil =>
    simp only [setEntry, List.mem_singleton] at h
    exact Or.inl h
  | cons e' rest ih =>
    obtain ⟨k', v'⟩ := e'
    by_cases hk : k' = k
    · simp only [setEntry, hk, if_true, List.mem_cons] at h
      rcases h with h | h
      · exact Or.inl h
      · exact Or.inr (List.mem_cons_of_mem _ h)
    · simp only [setEntry, hk, if_false, List.mem_cons] at h
      rcases h with h | h
      · exact Or.inr (by rw [h]; exact List.mem_cons_self _ _)
      · rcases ih h with h' | h'
        · exact Or.inl h'
        · exact Or.inr (List.mem_cons_of_mem _ h')

/-- The keys after `m[k] = v` are `k` and the keys from before. -/
theorem mem_entryKeys_setEntry (k v : String) (es : List (String × String)) (x : String) :
    x ∈ entryKeys (setEntry k v es) ↔ x = k ∨ x ∈ entryKeys es := by
  by_cases hk : k ∈ entryKeys es
  · rw [entryKeys_setEntry_of_mem k v es hk]
    constructor
    · exact Or.inr
    · rintro (h | h)
      · rw [h]; exact hk
      · exact h
  · rw [entryKeys_setEntry_of_not_mem k v es hk]
    simp only [List.mem_append, List.mem_singleton]
    exact Or.comm

namespace LocalCacheItem

/-- Any sequence of `UpdateConfirmList` calls leaves `Msg` and `Hash` as they are. -/
theorem updateAll_Hash (calls : List (String × String)) :
    ∀ l : LocalCacheItem, (l.updateAll calls).Hash = l.Hash ∧ (l.updateAll calls).Msg = l.Msg := by
  induction calls with
  | nil => intro l; exact ⟨rfl, rfl⟩
  | cons c rest ih =>
    intro l
    have := ih (l.UpdateConfirmList c.1 c.2)
    simpa [updateAll, UpdateConfirmList] using this

/-- The parties in the confirm list after a sequence of calls are those from before and
those of the calls. -/
theorem updateAll_keys (calls : List (String × String)) :
    ∀ (l : LocalCacheItem) (x : String),
      x ∈ entryKeys (l.updateAll calls).ConfirmedList.entries ↔
        x ∈ entryKeys l.ConfirmedList.entries ∨ x ∈ calls.map Prod.fst := by
  induction calls with
  | nil => intro l x; simp [updateAll]
  | cons c rest ih =>
    intro l x
    have h := ih (l.UpdateConfirmList c.1 c.2) x
    have hstep : (l.updateAll (c :: rest)) = (l.UpdateConfirmList c.1 c.2).updateAll rest := rfl
    rw [hstep, h]
    simp only [UpdateConfirmList, GoMap.set, mem_entryKeys_setEntry, List.map_cons,
      List.mem_cons]
    tauto

/-- When every entry from before and every call carries the hash `h`, so does every entry
afterwards. -/
theorem updateAll_values (h : String) (calls : List (String × String)) :
    ∀ l : LocalCacheItem, (∀ e ∈ l.ConfirmedList.entries, e.2 = h) → (∀ c ∈ calls, c.2 = h) →
      ∀ e ∈ (l.updateAll calls).ConfirmedList.entries, e.2 = h := by
  induction calls with
  | nil => intro l hl _ e he; exact hl e he
  | cons c rest ih =>
    intro l hl hc
    apply ih (l.UpdateConfirmList c.1 c.2)
    · intro e he
      rcases mem_setEntry c.1 c.2 l.ConfirmedList.entries e he with h' | h'
      · rw [h']; exact hc c (List.mem_cons_self _ _)
      · exact hl e h'
    · intro c' hc'
      exact hc c' (List.mem_cons_of_mem _ hc')

/-- Claim C9, as stated, fails: after party "p" confirms the hash "x" on an item whose
hash is "h", one party has confirmed, which reaches the threshold 1, and no entry of the
confirm list carries the item's hash. -/
theorem TotalConfirmParty_counts_disagreeing :
    ((sampleCacheItem "h").updateAll [("p", "x")]).TotalConfirmParty ≥ 1 ∧
    ((sampleCacheItem "h").updateAll [("p", "x")]).Hash = "h" ∧
    ((sampleCacheItem "h").updateAll [("p", "x")]).ConfirmedList.entries = [("p", "x")] ∧
    ((sampleCacheItem "h").updateAll [("p", "x")]).agreeing = 0 := by
  refine ⟨by decide, by decide, by decide, by decide⟩

/-- Claim C9, amended. For an item reached from an empty confirm list by any sequence of
`UpdateConfirmList` calls, `TotalConfirmParty` counts every party that confirmed,
whatever hash it sent: it is the number of distinct parties of the calls, and the sum of
the entries that carry the item's `Hash` and of those that do not. So for every
threshold `t`, `TotalConfirmParty ≥ t` gives `t` entries in the confirm list, and `t`
entries carrying the item's `Hash` when every call of the sequence carried that hash. -/
theorem TotalConfirmParty_ready (l : LocalCacheItem) (calls : List (String × String))
    (t : Nat) (hempty : l.ConfirmedList.entries = []) :
    (l.updateAll calls).Hash = l.Hash ∧
    (l.updateAll calls).TotalConfirmParty = (calls.map Prod.fst).dedup.length ∧
    (l.updateAll calls).TotalConfirmParty =
      (l.updateAll calls).agreeing + (l.updateAll calls).disagreeing ∧
    ((l.updateAll calls).TotalConfirmParty ≥ t →
      (l.updateAll calls).ConfirmedList.entries.length ≥ t) ∧
    ((∀ c ∈ calls, c.2 = l.Hash) → (l.updateAll calls).TotalConfirmParty ≥ t →
      (l.updateAll calls).agreeing ≥ t) := by
  have hH := (updateAll_Hash calls l).1
  refine ⟨hH, ?_, ?_, fun h => h, ?_⟩
  · have hperm : (entryKeys (l.updateAll calls).ConfirmedList.entries).Perm
        (calls.map Prod.fst).dedup := by
      rw [List.perm_ext_iff_of_nodup (l.updateAll calls).ConfirmedList.nodup
        (List.nodup_dedup _)]
      intro x
      rw [updateAll_keys calls l x, hempty]
      simp [entryKeys]
    have hlen := hperm.length_eq
    simpa [TotalConfirmParty, GoMap.len, entryKeys] using hlen
  · simp only [TotalConfirmParty, GoMap.len, agreeing, disagreeing]
    rw [List.length_eq_countP_add_countP (fun e => decide (e.2 = (l.updateAll calls).Hash))]
    simp
  · intro hall ht
    have hv := updateAll_values l.Hash calls l (by rw [hempty]; simp) hall
    have : (l.updateAll calls).agreeing = (l.updateAll calls).ConfirmedList.entries.length := by
      simp only [agreeing, hH]
      rw [List.countP_eq_length]
      intro e he
      simpa using hv e he
    rw [this]
    exact ht

/-- Claim C9, amended, at a concrete input: three confirmations from two parties, all
carrying the item's hash, give two agreeing entries. -/
theorem TotalConfirmParty_ready_witness :
    (sampleCacheItem "h").ConfirmedList.entries = [] ∧
    ((sampleCacheItem "h").updateAll [("p", "h"), ("q", "h"), ("p", "h")]).TotalConfirmParty
      = ([("p", "h"), ("q", "h"), ("p", "h")].map Prod.fst).dedup.length ∧
    ((sampleCacheItem "h").updateAll [("p", "h"), ("q", "h"), ("p", "h")]).agreeing ≥ 2 :=
  ⟨rfl,
   (TotalConfirmParty_ready (sampleCacheItem "h") [("p", "h"), ("q", "h"), ("p", "h")] 2
      rfl).2.1,
   (TotalConfirmParty_ready (sampleCacheItem "h") [("p", "h"), ("q", "h"), ("p", "h")] 2
      rfl).2.2.2.2 (by decide) (by decide)⟩

end LocalCacheItem

/-! ## Theorems: task-done notifications -/

namespace TssCommon

/-- After a frame from `peerID`, the peers recorded as finished are those from before and
`peerID`. -/
theorem mem_finishedPeers_ProcessOneMessage (t : TssCommon) (peerID x : String) :
    x ∈ (t.ProcessOneMessage peerID).2.finishedPeers ↔ x ∈ t.finishedPeers ∨ x = peerID := by
  unfold ProcessOneMessage
  by_cases h : peerID ∈ t.finishedPeers
  · simp only [h, if_true]
    constructor
    · exact Or.inl
    · rintro (hx | hx)
      · exact hx
      · rw [hx]; exact h
  · simp only [h, if_false, List.mem_append, List.mem_singleton]

/-- The error of the frame at position `i` is the duplicate error exactly when its peer is
recorded as finished or sent an earlier frame of the sequence. -/
theorem ProcessFrames_getElem (peers : List String) :
    ∀ (t : TssCommon) (i : Nat) (p : String), peers[i]? = some p →
      (t.ProcessFrames peers)[i]? = some
        (if p ∈ t.finishedPeers ++ peers.take i then
          some (GoError.new ("duplicated notification from peer " ++ p ++ " ignored"))
        else none) := by
  induction peers with
  | nil => intro t i p h; simp at h
  | cons q rest ih =>
    intro t i p h
    cases i with
    | zero =>
      simp only [List.getElem?_cons_zero, Option.some.injEq] at h
      subst h
      simp only [ProcessFrames, List.getElem?_cons_zero, List.take_zero, List.append_nil,
        ProcessOneMessage]
      by_cases hq : q ∈ t.finishedPeers <;> simp [hq]
    | succ j =>
      simp only [List.getElem?_cons_succ] at h
      have := ih (t.ProcessOneMessage q).2 j p h
      simp only [ProcessFrames, List.getElem?_cons_succ, this]
      have hiff : p ∈ (t.ProcessOneMessage q).2.finishedPeers ++ rest.take j ↔
          p ∈ t.finishedPeers ++ (q :: rest).take (j + 1) := by
        simp only [List.mem_append, mem_finishedPeers_ProcessOneMessage, List.take_succ_cons,
          List.mem_cons]
        tauto
      by_cases hp : p ∈ (t.ProcessOneMessage q).2.finishedPeers ++ rest.take j
      · rw [if_pos hp, if_pos (hiff.mp hp)]
      · rw [if_neg hp, if_neg (fun h' => hp (hiff.mpr h'))]

/-- Claim C10. In a session whose party info is set, for every sequence of `TSSTaskDone`
frames handed to `ProcessOneMessage`, the frame at each position returns no error when no
earlier frame of the sequence came from its peer, and returns the error "duplicated
notification from peer <id> ignored" naming its peer when one did; frames from node1,
node2, node1 yield nil, nil and "duplicated notification from peer node1 ignored". -/
theorem ProcessOneMessage_taskDone_dedup (knownParties : Nat) (peers : List String) :
    ((fresh knownParties).ProcessFrames peers).length = peers.length ∧
    (∀ (i : Nat) (p : String), peers[i]? = some p →
      (p ∉ peers.take i → ((fresh knownParties).ProcessFrames peers)[i]? = some none) ∧
      (p ∈ peers.take i → ∃ e, ((fresh knownParties).ProcessFrames peers)[i]? = some (some e) ∧
        e.Error = "duplicated notification from peer " ++ p ++ " ignored")) ∧
    ((fresh 2).ProcessFrames ["node1", "node2", "node1"]).map (Option.map GoError.Error) =
      [none, none, some "duplicated notification from peer node1 ignored"] := by
  refine ⟨?_, ?_, by decide⟩
  · generalize fresh knownParties = t
    induction peers generalizing t with
    | nil => rfl
    | cons q rest ih => simp [ProcessFrames, ih]
  · intro i p h
    have hget := ProcessFrames_getElem peers (fresh knownParties) i p h
    have hfresh : (fresh knownParties).finishedPeers ++ peers.take i = peers.take i := rfl
    rw [hfresh] at hget
    constructor
    · intro hp
      rw [hget, if_neg hp]
    · intro hp
      rw [hget, if_pos hp]
      exact ⟨_, rfl, rfl⟩

end TssCommon

/-! ## Theorems: the subscription registry -/

namespace Communication

/-- Looking for the key `k` among the entries whose key is not `k` finds nothing. -/
theorem find?_filter_self {β : Type} (k : THORChainTSSMessageType × String)
    (l : List ((THORChainTSSMessageType × String) × β)) :
    (l.filter (fun e => !(e.1 == k))).find? (fun e => e.1 == k) = none := by
  rw [List.find?_eq_none]
  intro e he
  have := (List.mem_filter.mp he).2
  simpa using this

/-- Dropping the entries of the key `k` does not change what is found for another key. -/
theorem find?_filter_other {β : Type} (k k' : THORChainTSSMessageType × String) (h : k' ≠ k)
    (l : List ((THORChainTSSMessageType × String) × β)) :
    (l.filter (fun e => !(e.1 == k))).find? (fun e => e.1 == k') =
      l.find? (fun e => e.1 == k') := by
  induction l with
  | nil => rfl
  | cons e rest ih =>
    by_cases hk : e.1 = k
    · have hb : (e.1 == k) = true := by simp [hk]
      have hb' : (e.1 == k') = false := by
        rw [beq_eq_false_iff_ne]
        exact fun h' => h (h'.symm.trans hk)
      simp only [List.filter_cons, List.find?_cons, hb, hb', Bool.not_true]
      rw [if_neg (by decide)]
      exact ih
    · have hb : (e.1 == k) = false := by
        rw [beq_eq_false_iff_ne]
        exact hk
      by_cases hk' : e.1 = k'
      · have hb' : (e.1 == k') = true := by simp [hk']
        simp only [List.filter_cons, List.find?_cons, hb, hb', Bool.not_false, if_true]
      · have hb' : (e.1 == k') = false := by
          rw [beq_eq_false_iff_ne]
          exact hk'
        simp only [List.filter_cons, List.find?_cons, hb, hb', Bool.not_false, if_true, ih]

theorem getSubscriber_SetSubscribe_self (c : Communication) (t : THORChainTSSMessageType)
    (i : String) (ch : ChanRef) : (c.SetSubscribe t i ch).getSubscriber t i = some ch := by
  simp [getSubscriber, SetSubscribe]

theorem getSubscriber_SetSubscribe_other (c : Communication)
    (t t' : THORChainTSSMessageType) (i i' : String) (ch : ChanRef) (h : (t', i') ≠ (t, i)) :
    (c.SetSubscribe t i ch).getSubscriber t' i' = c.getSubscriber t' i' := by
  have hb : ((t, i) == (t', i')) = false := by
    rw [beq_eq_false_iff_ne]
    exact fun h' => h h'.symm
  simp only [getSubscriber, SetSubscribe, List.find?_cons, hb]
  rw [find?_filter_other (t, i) (t', i') h]

theorem getSubscriber_CancelSubscribe_self (c : Communication) (t : THORChainTSSMessageType)
    (i : String) : (c.CancelSubscribe t i).getSubscriber t i = none := by
  simp only [getSubscriber, CancelSubscribe, find?_filter_self, Option.map_none']

theorem getSubscriber_CancelSubscribe_other (c : Communication)
    (t t' : THORChainTSSMessageType) (i i' : String) (h : (t', i') ≠ (t, i)) :
    (c.CancelSubscribe t i).getSubscriber t' i' = c.getSubscriber t' i' := by
  simp only [getSubscriber, CancelSubscribe]
  rw [find?_filter_other (t, i) (t', i') h]

end Communication

/-- A list that ends in `a` and is split around an element `x`: `x` is that last element,
or the part after `x` ends in `a`. -/
theorem split_of_concat {α : Type} (calls pre post : List α) (a x : α)
    (h : calls ++ [a] = pre ++ x :: post) :
    (post = [] ∧ x = a ∧ calls = pre) ∨
      ∃ post', post = post' ++ [a] ∧ calls = pre ++ x :: post' := by
  rcases List.eq_nil_or_concat post with hp | ⟨post', b, hp⟩
  · subst hp
    have h' : calls ++ [a] = pre ++ [x] := h
    obtain ⟨h1, h2⟩ := List.append_inj' h' rfl
    simp only [List.cons.injEq, and_true] at h2
    exact Or.inl ⟨rfl, h2.symm, h1⟩
  · subst hp
    have h' : calls ++ [a] = (pre ++ x :: post') ++ [b] := by
      rw [h]; simp
    obtain ⟨h1, h2⟩ := List.append_inj' h' rfl
    simp only [List.cons.injEq, and_true] at h2
    exact Or.inr ⟨post', by rw [h2, List.concat_eq_append], h1⟩

namespace Communication

theorem afterCalls_concat (c : Communication) (calls : List Call) (a : Call) :
    c.afterCalls (calls ++ [a]) = (c.afterCalls calls).afterCall a := by
  simp [afterCalls, List.foldl_append]

/-- A call that is not on the pair leaves the subscriber of the pair as it is. -/
theorem getSubscriber_afterCall_other (c : Communication) (a : Call)
    (t : THORChainTSSMessageType) (i : String)
    (h1 : a ≠ .cancel t i) (h2 : ∀ ch, a ≠ .set t i ch) :
    (c.afterCall a).getSubscriber t i = c.getSubscriber t i := by
  cases a with
  | set t' i' ch =>
    apply getSubscriber_SetSubscribe_other
    intro h
    injection h with ht hi
    exact h2 ch (by rw [ht, hi])
  | cancel t' i' =>
    apply getSubscriber_CancelSubscribe_other
    intro h
    injection h with ht hi
    exact h1 (by rw [ht, hi])

/-- After a sequence of calls on a new registry, the pair has the subscriber `ch` exactly
when `SetSubscribe` with `ch` is the last call of the sequence on the pair. -/
theorem getSubscriber_eq_some_iff (t : THORChainTSSMessageType) (i : String) (ch : ChanRef)
    (calls : List Call) :
    (NewCommunication.afterCalls calls).getSubscriber t i = some ch ↔
      ∃ pre post, calls = pre ++ Call.set t i ch :: post ∧
        ∀ a ∈ post, a ≠ Call.cancel t i ∧ ∀ ch', a ≠ Call.set t i ch' := by
  induction calls using List.reverseRecOn with
  | nil =>
    constructor
    · intro h; cases h
    · rintro ⟨pre, post, h, _⟩
      cases pre <;> cases h
  | append_singleton calls a ih =>
    rw [afterCalls_concat]
    by_cases hc : a = .cancel t i
    · subst hc
      simp only [afterCall, getSubscriber_CancelSubscribe_self]
      constructor
      · intro h; cases h
      · rintro ⟨pre, post, h, hpost⟩
        rcases split_of_concat calls pre post _ _ h with ⟨_, hx, _⟩ | ⟨post', hp, _⟩
        · cases hx
        · exact absurd rfl (hpost (.cancel t i) (by rw [hp]; simp)).1
    · by_cases hs : ∃ ch', a = .set t i ch'
      · obtain ⟨ch', hs⟩ := hs
        subst hs
        simp only [afterCall, getSubscriber_SetSubscribe_self, Option.some.injEq]
        constructor
        · intro h
          subst h
          exact ⟨calls, [], rfl, by simp⟩
        · rintro ⟨pre, post, h, hpost⟩
          rcases split_of_concat calls pre post _ _ h with ⟨_, hx, _⟩ | ⟨post', hp, _⟩
          · injection hx with _ _ hch
            exact hch.symm
          · exact absurd rfl ((hpost (.set t i ch') (by rw [hp]; simp)).2 ch')
      · have hs' : ∀ ch', a ≠ .set t i ch' := fun ch' h => hs ⟨ch', h⟩
        rw [getSubscriber_afterCall_other _ a t i hc hs', ih]
        constructor
        · rintro ⟨pre, post, h, hpost⟩
          refine ⟨pre, post ++ [a], by rw [h]; simp, ?_⟩
          intro b hb
          simp only [List.mem_append, List.mem_singleton] at hb
          rcases hb with hb | hb
          · exact hpost b hb
          · rw [hb]; exact ⟨hc, hs'⟩
        · rintro ⟨pre, post, h, hpost⟩
          rcases split_of_concat calls pre post _ _ h with ⟨_, hx, _⟩ | ⟨post', hp, hcalls⟩
          · exact absurd hx.symm (hs' ch)
          · refine ⟨pre, post', hcalls, ?_⟩
            intro b hb
            exact hpost b (by rw [hp]; exact List.mem_append_left _ hb)

/-- After a sequence of calls on a new registry, the pair has a subscriber exactly when
`SetSubscribe` was called on it and no `CancelSubscribe` on it followed. -/
theorem getSubscriber_ne_none_iff (t : THORChainTSSMessageType) (i : String)
    (calls : List Call) :
    (NewCommunication.afterCalls calls).getSubscriber t i ≠ none ↔
      ∃ pre ch post, calls = pre ++ Call.set t i ch :: post ∧ Call.cancel t i ∉ post := by
  induction calls using List.reverseRecOn with
  | nil =>
    constructor
    · intro h; exact absurd rfl h
    · rintro ⟨pre, ch, post, h, _⟩
      cases pre <;> cases h
  | append_singleton calls a ih =>
    rw [afterCalls_concat]
    by_cases hc : a = .cancel t i
    · subst hc
      simp only [afterCall, getSubscriber_CancelSubscribe_self]
      constructor
      · intro h; exact absurd rfl h
      · rintro ⟨pre, ch, post, h, hpost⟩
        rcases split_of_concat calls pre post _ _ h with ⟨_, hx, _⟩ | ⟨post', hp, _⟩
        · cases hx
        · exact absurd (by rw [hp]; simp) hpost
    · by_cases hs : ∃ ch', a = .set t i ch'
      · obtain ⟨ch', hs⟩ := hs
        subst hs
        simp only [afterCall, getSubscriber_SetSubscribe_self]
        constructor
        · intro _
          exact ⟨calls, ch', [], rfl, by simp⟩
        · intro _ h
          cases h
      · have hs' : ∀ ch', a ≠ .set t i ch' := fun ch' h => hs ⟨ch', h⟩
        rw [getSubscriber_afterCall_other _ a t i hc hs', ih]
        constructor
        · rintro ⟨pre, ch, post, h, hpost⟩
          refine ⟨pre, ch, post ++ [a], by rw [h]; simp, ?_⟩
          intro hb
          simp only [List.mem_append, List.mem_singleton] at hb
          rcases hb with hb | hb
          · exact hpost hb
          · exact hc hb.symm
        · rintro ⟨pre, ch, post, h, hpost⟩
          rcases split_of_concat calls pre post _ _ h with ⟨_, hx, _⟩ | ⟨post', hp, hcalls⟩
          · exact absurd hx.symm (hs' ch)
          · refine ⟨pre, ch, post', hcalls, ?_⟩
            intro hb
            exact hpost (by rw [hp]; exact List.mem_append_left _ hb)

/-- Claim C11. For every registry and every `(type, id)` that has no subscriber in it,
`CancelSubscribe` (which always completes and returns no error) leaves the registry
unchanged; for every `(type, id)`, cancelling twice yields the same registry as cancelling
once. The three cancellations of `TestBasicCommunication` end in the new registry. -/
theorem CancelSubscribe_idempotent (c : Communication) (topic : THORChainTSSMessageType)
    (msgID : String) :
    (c.getSubscriber topic msgID = none → c.CancelSubscribe topic msgID = c) ∧
    (c.CancelSubscribe topic msgID).CancelSubscribe topic msgID =
      c.CancelSubscribe topic msgID ∧
    (∀ ch : ChanRef,
      (((NewCommunication.SetSubscribe TSSKeyGenMsg "hello" ch).CancelSubscribe
          TSSKeyGenMsg "hello").CancelSubscribe TSSKeyGenMsg "whatever").CancelSubscribe
          TSSKeySignMsg "asdsdf" = NewCommunication) := by
  refine ⟨?_, ?_, ?_⟩
  · intro h
    simp only [getSubscriber, Option.map_eq_none', List.find?_eq_none] at h
    have hf : c.subscribers.filter (fun e => !(e.1 == (topic, msgID))) = c.subscribers := by
      rw [List.filter_eq_self]
      intro e he
      have := h e he
      simpa using this
    cases c with
    | mk subs =>
      simp only [CancelSubscribe] at hf ⊢
      rw [hf]
  · simp [CancelSubscribe, List.filter_filter]
  · intro ch
    simp [NewCommunication, SetSubscribe, CancelSubscribe]

/-- Claim C12. After any sequence of `SetSubscribe` and `CancelSubscribe` calls on a new
registry, `getSubscriber(type, id)` returns a non-nil channel exactly when `SetSubscribe`
was called on the pair and no `CancelSubscribe` on the pair followed, and it returns `ch`
exactly when `SetSubscribe(type, id, ch)` is the last call on the pair. Subscriptions are
keyed by the pair: after `SetSubscribe(TSSKeyGenMsg, id, ch)` alone,
`getSubscriber(TSSKeySignMsg, id)` is nil and `getSubscriber(TSSKeyGenMsg, id)` is `ch`. -/
theorem getSubscriber_spec (calls : List Call) (topic : THORChainTSSMessageType)
    (msgID : String) :
    ((NewCommunication.afterCalls calls).getSubscriber topic msgID ≠ none ↔
      ∃ pre ch post, calls = pre ++ Call.set topic msgID ch :: post ∧
        Call.cancel topic msgID ∉ post) ∧
    (∀ ch, (NewCommunication.afterCalls calls).getSubscriber topic msgID = some ch ↔
      ∃ pre post, calls = pre ++ Call.set topic msgID ch :: post ∧
        ∀ a ∈ post, a ≠ Call.cancel topic msgID ∧ ∀ ch', a ≠ Call.set topic msgID ch') ∧
    (∀ ch, (NewCommunication.SetSubscribe TSSKeyGenMsg msgID ch).getSubscriber
        TSSKeySignMsg msgID = none ∧
      (NewCommunication.SetSubscribe TSSKeyGenMsg msgID ch).getSubscriber
        TSSKeyGenMsg msgID = some ch) := by
  refine ⟨getSubscriber_ne_none_iff topic msgID calls,
    fun ch => getSubscriber_eq_some_iff topic msgID ch calls, ?_⟩
  intro ch
  refine ⟨?_, getSubscriber_SetSubscribe_self _ _ _ _⟩
  rw [getSubscriber_SetSubscribe_other]
  · rfl
  · intro h
    injection h with ht _
    revert ht
    decide

end Communication

/-! ## Theorems: the confirm list -/

/-- The entry found for `k` after `m[k] = v` is `(k, v)`. -/
theorem find?_setEntry_self (k v : String) (es : List (String × String)) :
    (setEntry k v es).find? (fun e => e.1 == k) = some (k, v) := by
  induction es with
  | nil => simp [setEntry]
  | cons e rest ih =>
    obtain ⟨k', v'⟩ := e
    by_cases hk : k' = k
    · simp [setEntry, hk]
    · have hb : (k' == k) = false := by
        rw [beq_eq_false_iff_ne]
        exact hk
      simp only [setEntry, hk, if_false, List.find?_cons, hb]
      exact ih

/-- The entry found for another key is the same before and after `m[k] = v`. -/
theorem find?_setEntry_other (k v q : String) (hq : q ≠ k) (es : List (String × String)) :
    (setEntry k v es).find? (fun e => e.1 == q) = es.find? (fun e => e.1 == q) := by
  induction es with
  | nil =>
    have hb : (k == q) = false := by
      rw [beq_eq_false_iff_ne]
      exact fun h => hq h.symm
    simp only [setEntry, List.find?_cons, hb, List.find?_nil]
  | cons e rest ih =>
    obtain ⟨k', v'⟩ := e
    by_cases hk : k' = k
    · have hb : (k == q) = false := by
        rw [beq_eq_false_iff_ne]
        exact fun h => hq h.symm
      have hb' : (k' == q) = false := by
        rw [hk]
        exact hb
      simp only [setEntry, hk, if_true, List.find?_cons, hb]
    · by_cases hq' : k' = q
      · have hb : (k' == q) = true := by simp [hq']
        simp only [setEntry, hk, if_false, List.find?_cons, hb]
      · have hb : (k' == q) = false := by
          rw [beq_eq_false_iff_ne]
          exact hq'
        simp only [setEntry, hk, if_false, List.find?_cons, hb]
        exact ih

/-- The new entry is in the list after `m[k] = v`. -/
theorem mem_setEntry_self (k v : String) (es : List (String × String)) :
    (k, v) ∈ setEntry k v es := by
  induction es with
  | nil => simp [setEntry]
  | cons e rest ih =>
    obtain ⟨k', v'⟩ := e
    by_cases hk : k' = k
    · simp [setEntry, hk]
    · simp only [setEntry, hk, if_false]
      exact List.mem_cons_of_mem _ ih

/-- In a map, after `m[k] = v` the only entry with the key `k` is `(k, v)`. -/
theorem key_entry_setEntry (k v : String) (es : List (String × String))
    (h : (entryKeys es).Nodup) (e : String × String) (he : e ∈ setEntry k v es)
    (hk : e.1 = k) : e = (k, v) :=
  List.inj_on_of_nodup_map (nodup_entryKeys_setEntry k v es h) he (mem_setEntry_self k v es) hk

namespace GoMap

/-- A key has no value in the map exactly when it is not among the keys. -/
theorem get_eq_none_iff (m : GoMap) (k : String) :
    m.get k = none ↔ k ∉ entryKeys m.entries := by
  simp only [get, Option.map_eq_none', List.find?_eq_none, entryKeys, List.mem_map, not_exists,
    not_and]
  constructor
  · intro h e he hk
    have := h e he
    simp [hk] at this
  · intro h e he
    have := h e he
    simpa using this

theorem get_set_self (m : GoMap) (k v : String) : (m.set k v).get k = some v := by
  simp only [get, set, find?_setEntry_self, Option.map_some']

theorem get_set_other (m : GoMap) (k v q : String) (hq : q ≠ k) :
    (m.set k v).get q = m.get q := by
  simp only [get, set, find?_setEntry_other k v q hq]

theorem len_set_of_none (m : GoMap) (k v : String) (h : m.get k = none) :
    (m.set k v).len = m.len + 1 := by
  have hk := (get_eq_none_iff m k).mp h
  have := congrArg List.length (entryKeys_setEntry_of_not_mem k v m.entries hk)
  simpa [len, set, entryKeys] using this

theorem len_set_of_some (m : GoMap) (k v : String) (h : m.get k ≠ none) :
    (m.set k v).len = m.len := by
  have hk : k ∈ entryKeys m.entries := by
    by_contra hk
    exact h ((get_eq_none_iff m k).mpr hk)
  have := congrArg List.length (entryKeys_setEntry_of_mem k v m.entries hk)
  simpa [len, set, entryKeys] using this

end GoMap

namespace LocalCacheItem

/-- Claim C13. `TotalConfirmParty` is the number of distinct parties in `ConfirmedList`;
after `UpdateConfirmList(p, h)` it is one more than before when `p` had no entry, and
equal to the value before when `p` already had one, whatever hash that entry carried. -/
theorem TotalConfirmParty_UpdateConfirmList (l : LocalCacheItem) (p h : String) :
    l.TotalConfirmParty = (entryKeys l.ConfirmedList.entries).toFinset.card ∧
    (l.ConfirmedList.get p = none →
      (l.UpdateConfirmList p h).TotalConfirmParty = l.TotalConfirmParty + 1) ∧
    (∀ h0, l.ConfirmedList.get p = some h0 →
      (l.UpdateConfirmList p h).TotalConfirmParty = l.TotalConfirmParty) := by
  refine ⟨?_, ?_, ?_⟩
  · rw [List.toFinset_card_of_nodup l.ConfirmedList.nodup]
    simp [TotalConfirmParty, GoMap.len, entryKeys]
  · intro hnone
    exact GoMap.len_set_of_none l.ConfirmedList p h hnone
  · intro h0 hsome
    exact GoMap.len_set_of_some l.ConfirmedList p h (by rw [hsome]; simp)

/-- Claim C15. After `UpdateConfirmList(p, h)`, `ConfirmedList` maps `p` to `h`, every
other party's entry is what it was before, and `Msg` and `Hash` are unchanged; the only
entry of `p` carries `h`, and a later confirmation `h'` from `p` replaces it: the list
then maps `p` to `h'`, has as many entries, and its only entry of `p` carries `h'`. -/
theorem UpdateConfirmList_frame (l : LocalCacheItem) (p h : String) :
    (l.UpdateConfirmList p h).ConfirmedList.get p = some h ∧
    (∀ q, q ≠ p → (l.UpdateConfirmList p h).ConfirmedList.get q = l.ConfirmedList.get q) ∧
    (l.UpdateConfirmList p h).Msg = l.Msg ∧
    (l.UpdateConfirmList p h).Hash = l.Hash ∧
    (∀ e ∈ (l.UpdateConfirmList p h).ConfirmedList.entries, e.1 = p → e.2 = h) ∧
    (∀ h', ((l.UpdateConfirmList p h).UpdateConfirmList p h').ConfirmedList.get p = some h' ∧
      ((l.UpdateConfirmList p h).UpdateConfirmList p h').TotalConfirmParty =
        (l.UpdateConfirmList p h).TotalConfirmParty ∧
      (∀ e ∈ ((l.UpdateConfirmList p h).UpdateConfirmList p h').ConfirmedList.entries,
        e.1 = p → e.2 = h')) := by
  refine ⟨GoMap.get_set_self _ p h, fun q hq => GoMap.get_set_other _ p h q hq, rfl, rfl,
    ?_, ?_⟩
  · intro e he hk
    rw [key_entry_setEntry p h l.ConfirmedList.entries l.ConfirmedList.nodup e he hk]
  · intro h'
    refine ⟨GoMap.get_set_self _ p h', ?_, ?_⟩
    · apply GoMap.len_set_of_some
      have : (l.ConfirmedList.set p h).get p = some h := GoMap.get_set_self _ p h
      simp only [UpdateConfirmList]
      rw [this]
      simp
    · intro e he hk
      rw [key_entry_setEntry p h' (l.UpdateConfirmList p h).ConfirmedList.entries
        (l.UpdateConfirmList p h).ConfirmedList.nodup e he hk]

end LocalCacheItem

namespace Notifier

/-- Claim C14 does not hold of the code. When the pool public key decodes to an Ed25519
key that parses and `d.Signature` does not parse as an Ed25519 signature,
`verifySignature d` returns no result: after printing the parse error it reads `R` of the
nil signature and faults, and so does `ProcessSignature d`. -/
theorem verifySignature_ed25519_unparsed_faults (L : CryptoLib) (n : Notifier)
    (d : SignatureData) (rawPk : Bytes) (pk : CurvePoint) (err : GoError)
    (hdec : L.GetPubKeyFromBech32 n.poolPubKey = .ok (.PubKeyEd25519 rawPk))
    (hparse : L.edwardsParsePubKey rawPk = .ok pk)
    (hsig : L.edwardsParseSignature d.Signature = .error err) :
    n.verifySignature L d = .fault ∧
    (∀ r, n.verifySignature L d ≠ .ret r) ∧
    n.ProcessSignature L (some d) = .fault := by
  have hver : n.verifySignature L d = .fault := by
    simp only [verifySignature, hdec, hparse, hsig]
  refine ⟨hver, ?_, ProcessSignature_of_fault L n d hver⟩
  intro r h
  rw [hver] at h
  cases h

/-- Claim C14 at a concrete input: the sample Ed25519 notifier faults on a signature whose
`Signature` field is empty. -/
theorem verifySignature_ed25519_unparsed_faults_witness :
    toyLib.GetPubKeyFromBech32 (sampleNotifier "ed").poolPubKey = .ok (.PubKeyEd25519 [9]) ∧
    toyLib.edwardsParsePubKey [9] = .ok ⟨9, 1⟩ ∧
    toyLib.edwardsParseSignature unsignedSignature.Signature =
      .error (GoError.new "bad signature size") ∧
    (sampleNotifier "ed").verifySignature toyLib unsignedSignature = .fault :=
  ⟨by decide, by decide, by decide,
   (verifySignature_ed25519_unparsed_faults toyLib (sampleNotifier "ed") unsignedSignature
      [9] ⟨9, 1⟩ (GoError.new "bad signature size") (by decide) (by decide) (by decide)).1⟩

end Notifier

end Tss
